import Mathlib

/-!
# Verification of the GridShield OS power-grid simulation core

Shallow embedding of the deterministic DC power-flow / cascading-failure
simulator (graph store, injection builder, power-flow solver, cascade engine,
step orchestrator) and proofs about its claimed properties.

Modelling conventions:
* JavaScript `number` is modelled as `ℚ` (exact rational arithmetic; the
  source's `1e-9` / `1e-12` tolerances are kept verbatim as rationals).
* A JavaScript `Map<string, V>` is modelled as an insertion-ordered
  association list `List (String × V)`; `Map.get` is `mget`, `Map.set` is
  `mset` (update-in-place for an existing key, append for a fresh key),
  iteration is list order, exactly like a JS `Map`.
* A JavaScript `Set<string>` whose iteration order never matters is a
  `Finset String`; the one set whose construction order is observable
  (`islandedNodes`) is kept as a `List String` in construction order.
* `Math.sin` is transcendental, so it is threaded through as an
  uninterpreted parameter `sinF : ℚ → ℚ`; the only fact the real `Math.sin`
  guarantees and that proofs may assume is `|sinF t| ≤ 1`.
* `Array.prototype.sort` (ES2019+: stable) is modelled by the stable
  `List.insertionSort`; `localeCompare` and the default string comparator
  are modelled as code-point order on `String`.
* `JS -Infinity` sentinels for "no candidate yet" are modelled as
  `Option ℚ` with `none` standing for `-Infinity`.
* Wall-clock measurement (`performance.now`, `lastStepDurationMs`) is
  advisory only in the source and is out of scope of the embedding.
-/

/-- `Map.get`: first (and, for maps built by `mset`, only) binding of key `k`. -/
def mget {α : Type} (m : List (String × α)) (k : String) : Option α :=
  (m.find? (fun p => p.1 == k)).map Prod.snd

/-- `Map.set`: replace the binding of `k` in place, or append a fresh binding. -/
def mset {α : Type} : List (String × α) → String → α → List (String × α)
  | [], k, v => [(k, v)]
  | p :: ps, k, v => if p.1 = k then (k, v) :: ps else p :: mset ps k v

/-- Sum of the values of a map (the various `for (v of m.values()) s += v` loops). -/
def valuesSum (m : List (String × ℚ)) : ℚ :=
  (m.map Prod.snd).sum

/-- The JS `Map` invariant: one binding per key. -/
def NodupKeys {α : Type} (m : List (String × α)) : Prop :=
  (m.map Prod.fst).Nodup

-- ---------------------------------------------------------------------------
-- types.ts
-- ---------------------------------------------------------------------------

inductive NodeType where
  | generator
  | load
  | storage
  | substation
deriving DecidableEq, Repr

inductive EdgeState where
  | normal
  | warning
  | critical
  | tripped
deriving DecidableEq, Repr

structure GridNode where
  id : String
  type : NodeType
  name : String
  lat : ℚ
  lng : ℚ
  capacityMW : ℚ
  populationWeight : ℚ
deriving DecidableEq, Repr

structure GridEdge where
  id : String
  sourceId : String
  targetId : String
  capacityMW : ℚ
  reactance : ℚ
  lengthKm : ℚ
  state : EdgeState
deriving DecidableEq, Repr

structure GridGraph where
  nodes : List (String × GridNode)
  edges : List (String × GridEdge)
  adjacency : List (String × List String)
  edgeIndex : List (String × List String)
deriving DecidableEq, Repr

-- ---------------------------------------------------------------------------
-- graph.ts — createGraph
-- ---------------------------------------------------------------------------

/-- The edge loop of `createGraph`: fails on the first edge referencing an
unknown node id, otherwise threads the edge map / adjacency / incidence
accumulators. -/
def createGraphLoop (nodeMap : List (String × GridNode)) :
    List GridEdge →
    List (String × GridEdge) × List (String × List String) × List (String × List String) →
    Except String
      (List (String × GridEdge) × List (String × List String) × List (String × List String))
  | [], acc => Except.ok acc
  | edge :: rest, (edgeMap, adjacency, edgeIndex) =>
    if (mget nodeMap edge.sourceId).isNone then
      Except.error ("Edge " ++ edge.id ++ " references unknown source node " ++ edge.sourceId)
    else if (mget nodeMap edge.targetId).isNone then
      Except.error ("Edge " ++ edge.id ++ " references unknown target node " ++ edge.targetId)
    else
      let adjacency1 :=
        mset adjacency edge.sourceId ((mget adjacency edge.sourceId).getD [] ++ [edge.targetId])
      let adjacency2 :=
        mset adjacency1 edge.targetId ((mget adjacency1 edge.targetId).getD [] ++ [edge.sourceId])
      let edgeIndex1 :=
        mset edgeIndex edge.sourceId ((mget edgeIndex edge.sourceId).getD [] ++ [edge.id])
      let edgeIndex2 :=
        mset edgeIndex1 edge.targetId ((mget edgeIndex1 edge.targetId).getD [] ++ [edge.id])
      createGraphLoop nodeMap rest (mset edgeMap edge.id edge, adjacency2, edgeIndex2)

/-- `createGraph(nodes, edges)`: builds node map, adjacency and incidence, then
runs the edge loop; a thrown `Error` is modelled as `Except.error`. -/
def createGraph (nodes : List GridNode) (edges : List GridEdge) : Except String GridGraph :=
  let nodeMap := nodes.foldl (fun m node => mset m node.id node) []
  let adjacency0 := nodes.foldl (fun m node => mset m node.id ([] : List String)) []
  let edgeIndex0 := nodes.foldl (fun m node => mset m node.id ([] : List String)) []
  (createGraphLoop nodeMap edges ([], adjacency0, edgeIndex0)).map
    (fun acc => { nodes := nodeMap, edges := acc.1, adjacency := acc.2.1, edgeIndex := acc.2.2 })

-- ---------------------------------------------------------------------------
-- cascade.ts — detectOverloads
-- ---------------------------------------------------------------------------

/-- The order realised by the source's stable `sort((a, b) => b.util - a.util)`:
non-increasing utilization. -/
def utilDescOrder (a b : String × ℚ) : Prop := b.2 ≤ a.2

instance : DecidableRel utilDescOrder :=
  fun a b => inferInstanceAs (Decidable (b.2 ≤ a.2))

instance : IsTotal (String × ℚ) utilDescOrder := ⟨fun a b => le_total b.2 a.2⟩

instance : IsTrans (String × ℚ) utilDescOrder := ⟨fun _ _ _ h h' => le_trans h' h⟩

/-- `detectOverloads(utilizations, trippedEdges)`: non-tripped edges with
utilization > 1.0, in the order produced by the stable descending sort. -/
def detectOverloads (utilizations : List (String × ℚ)) (trippedEdges : Finset String) :
    List String :=
  let overloaded := utilizations.filter (fun p => decide (1 < p.2 ∧ p.1 ∉ trippedEdges))
  (overloaded.insertionSort utilDescOrder).map Prod.fst

-- ---------------------------------------------------------------------------
-- cascade.ts — tripEdges
-- ---------------------------------------------------------------------------

/-- `tripEdges(graph, edgesToTrip)`: mark the listed edges `tripped` and rebuild
adjacency / incidence excluding all tripped edges. -/
def tripEdges (graph : GridGraph) (edgesToTrip : List String) : GridGraph :=
  let newEdges := edgesToTrip.foldl
    (fun m edgeId =>
      match mget m edgeId with
      | some edge => mset m edgeId { edge with state := EdgeState.tripped }
      | none => m)
    graph.edges
  let adjacency0 := graph.nodes.foldl (fun m p => mset m p.1 ([] : List String)) []
  let edgeIndex0 := graph.nodes.foldl (fun m p => mset m p.1 ([] : List String)) []
  let rebuilt := newEdges.foldl
    (fun (acc : List (String × List String) × List (String × List String)) pe =>
      if pe.2.state = EdgeState.tripped then acc
      else
        let adj1 := match mget acc.1 pe.2.sourceId with
          | some lst => mset acc.1 pe.2.sourceId (lst ++ [pe.2.targetId])
          | none => acc.1
        let adj2 := match mget adj1 pe.2.targetId with
          | some lst => mset adj1 pe.2.targetId (lst ++ [pe.2.sourceId])
          | none => adj1
        let ei1 := match mget acc.2 pe.2.sourceId with
          | some lst => mset acc.2 pe.2.sourceId (lst ++ [pe.1])
          | none => acc.2
        let ei2 := match mget ei1 pe.2.targetId with
          | some lst => mset ei1 pe.2.targetId (lst ++ [pe.1])
          | none => ei1
        (adj2, ei2))
    (adjacency0, edgeIndex0)
  { nodes := graph.nodes, edges := newEdges, adjacency := rebuilt.1, edgeIndex := rebuilt.2 }

-- ---------------------------------------------------------------------------
-- cascade.ts — adjustInjectionsForIslanding
-- ---------------------------------------------------------------------------

/-- A node's `hasActiveEdge` check: some incident edge exists, is not in state
`tripped`, and is not in the tripped set. -/
def hasActiveEdge (graph : GridGraph) (trippedEdges : Finset String) (nodeId : String) : Bool :=
  ((mget graph.edgeIndex nodeId).getD []).any (fun eid =>
    match mget graph.edges eid with
    | some edge => decide (edge.state ≠ EdgeState.tripped ∧ eid ∉ trippedEdges)
    | none => false)

/-- The islanded-node set (as a list in `graph.nodes` iteration order, the
insertion order of the source's `Set`). -/
def islandedNodes (graph : GridGraph) (trippedEdges : Finset String) : List String :=
  (graph.nodes.map Prod.fst).filter (fun nodeId => !hasActiveEdge graph trippedEdges nodeId)

/-- Scan of `graph.nodes` for the highest-capacity non-islanded generator;
`("", none)` is the initial `('', -Infinity)` sentinel pair. -/
def bestConnectedGen (graph : GridGraph) (islanded : List String) : String × Option ℚ :=
  graph.nodes.foldl
    (fun acc p =>
      if p.2.type = NodeType.generator ∧ ¬ islanded.contains p.1 then
        match acc.2 with
        | none => (p.1, some p.2.capacityMW)
        | some bestCapacity =>
          if bestCapacity < p.2.capacityMW then (p.1, some p.2.capacityMW) else acc
      else acc)
    ("", none)

/-- `adjustInjectionsForIslanding(graph, injections, trippedEdges)`: zero the
islanded nodes, then (when the remaining imbalance exceeds `1e-9` and the JS
truthiness check `if (bestGenId)` passes) charge the whole imbalance to the
selected generator. -/
def adjustInjectionsForIslanding (graph : GridGraph) (injections : List (String × ℚ))
    (trippedEdges : Finset String) : List (String × ℚ) :=
  let islanded := islandedNodes graph trippedEdges
  let adjusted := islanded.foldl (fun m nodeId => mset m nodeId 0) injections
  let imbalance := valuesSum adjusted
  if 1e-9 < |imbalance| then
    let best := bestConnectedGen graph islanded
    if best.1 ≠ "" then
      mset adjusted best.1 (((mget adjusted best.1).getD 0) - imbalance)
    else adjusted
  else adjusted

-- ---------------------------------------------------------------------------
-- solver.ts — buildBMatrix
-- ---------------------------------------------------------------------------

/-- `M[i][j]` with JS out-of-range reads modelled as `0` (never hit on the
well-formed `n × n` matrices the solver builds). -/
def getEntry (M : List (List ℚ)) (i j : ℕ) : ℚ :=
  (M.getD i []).getD j 0

/-- `M[i][j] += d` as a functional update. -/
def addEntry (M : List (List ℚ)) (i j : ℕ) (d : ℚ) : List (List ℚ) :=
  M.set i ((M.getD i []).set j (getEntry M i j + d))

/-- `buildBMatrix(graph, nodeOrder)`: the reduced nodal susceptance matrix;
tripped edges contribute nothing.  `nodeOrder` has distinct entries (it comes
from `Map` keys), so the source's position map `idx` is `indexOf?`. -/
def buildBMatrix (graph : GridGraph) (nodeOrder : List String) : List (List ℚ) :=
  let n := nodeOrder.length
  (graph.edges.map Prod.snd).foldl
    (fun B edge =>
      if edge.state = EdgeState.tripped then B
      else
        let susceptance := 1 / edge.reactance
        let iIdx := nodeOrder.indexOf? edge.sourceId
        let jIdx := nodeOrder.indexOf? edge.targetId
        let B1 := match iIdx with
          | some i => addEntry B i i susceptance
          | none => B
        let B2 := match jIdx with
          | some j => addEntry B1 j j susceptance
          | none => B1
        match iIdx, jIdx with
        | some i, some j => addEntry (addEntry B2 i j (-susceptance)) j i (-susceptance)
        | _, _ => B2)
    (List.replicate n (List.replicate n 0))

-- ---------------------------------------------------------------------------
-- solver.ts — solveLinearSystem
-- ---------------------------------------------------------------------------

/-- Partial-pivot search in column `col` (rows `col+1 .. n-1` compared against
the starting candidate `row = col`); returns `(pivotRow, maxVal)`. -/
def pivotSearch (M : List (List ℚ)) (col n : ℕ) : ℕ × ℚ :=
  ((List.range n).drop (col + 1)).foldl
    (fun acc row => if acc.2 < |getEntry M row col| then (row, |getEntry M row col|) else acc)
    (col, |getEntry M col col|)

/-- Swap two positions of a list (the row / rhs swap of partial pivoting). -/
def swapIdx {α : Type} (l : List α) (i j : ℕ) : List α :=
  match l.get? i, l.get? j with
  | some a, some b => (l.set i b).set j a
  | _, _ => l

/-- Eliminate below the pivot: for each `row > col`, subtract
`factor * (pivot row)` from the row and its right-hand side. -/
def eliminateStep (n col : ℕ) (pivot : ℚ) (Mp : List (List ℚ) × List ℚ) :
    List (List ℚ) × List ℚ :=
  ((List.range n).drop (col + 1)).foldl
    (fun acc row =>
      let factor := getEntry acc.1 row col / pivot
      let newRow := ((List.range n).drop col).foldl
        (fun r k => r.set k (r.getD k 0 - factor * getEntry acc.1 col k))
        (acc.1.getD row [])
      (acc.1.set row newRow, acc.2.set row (acc.2.getD row 0 - factor * (acc.2.getD col 0))))
    Mp

/-- Forward elimination over columns `col, col+1, …`; `fuel = n - col` counts
the remaining columns (the `for (col = 0; col < n; col++)` loop).  `none`
signals the near-zero-pivot singular case. -/
def forwardElimAux (n : ℕ) :
    ℕ → ℕ → List (List ℚ) → List ℚ → Option (List (List ℚ) × List ℚ)
  | 0, _, M, rhs => some (M, rhs)
  | fuel + 1, col, M, rhs =>
    let ps := pivotSearch M col n
    if ps.2 < 1e-12 then none
    else
      let M1 := swapIdx M col ps.1
      let rhs1 := swapIdx rhs col ps.1
      let pivot := getEntry M1 col col
      let Mp := eliminateStep n col pivot (M1, rhs1)
      forwardElimAux n fuel (col + 1) Mp.1 Mp.2

/-- Back substitution: `x[row] = (rhs[row] - Σ_{c > row} M[row][c]·x[c]) / M[row][row]`. -/
def backSubst (n : ℕ) (M : List (List ℚ)) (rhs : List ℚ) : List ℚ :=
  ((List.range n).reverse).foldl
    (fun x row =>
      let s := ((List.range n).drop (row + 1)).foldl
        (fun s c => s - getEntry M row c * x.getD c 0)
        (rhs.getD row 0)
      x.set row (s / getEntry M row row))
    (List.replicate n 0)

/-- `solveLinearSystem(A, b)`: Gaussian elimination with partial pivoting;
returns the all-zero vector when a pivot magnitude falls below `1e-12`. -/
def solveLinearSystem (A : List (List ℚ)) (b : List ℚ) : List ℚ :=
  let n := b.length
  match forwardElimAux n n 0 A b with
  | none => List.replicate n 0
  | some Mrhs => backSubst n Mrhs.1 Mrhs.2

-- ---------------------------------------------------------------------------
-- solver.ts — computeAngles / deriveFlows / runPowerFlow
-- ---------------------------------------------------------------------------

/-- The code-point order used to model the default string sort. -/
def strLe (a b : String) : Prop := a ≤ b

instance : DecidableRel strLe := fun a b => inferInstanceAs (Decidable (a ≤ b))

instance : IsTotal String strLe := ⟨fun a b => le_total a b⟩

instance : IsTrans String strLe := ⟨fun _ _ _ h h' => le_trans h h'⟩

/-- `computeAngles(graph, injections, slackNodeId)`: solve `B·θ = P` over the
sorted non-slack nodes; the slack bus gets angle 0. -/
def computeAngles (graph : GridGraph) (injections : List (String × ℚ))
    (slackNodeId : String) : List (String × ℚ) :=
  let nodeOrder :=
    ((graph.nodes.map Prod.fst).filter (fun id => id ≠ slackNodeId)).insertionSort strLe
  let B := buildBMatrix graph nodeOrder
  let P := nodeOrder.map (fun id => (mget injections id).getD 0)
  let thetaValues := solveLinearSystem B P
  (nodeOrder.zip thetaValues).foldl
    (fun m p => mset m p.1 p.2)
    (mset ([] : List (String × ℚ)) slackNodeId 0)

/-- `deriveFlows(graph, angles)`: `flow = (θ_source − θ_target) / reactance`
for every edge, tripped ones included. -/
def deriveFlows (graph : GridGraph) (angles : List (String × ℚ)) : List (String × ℚ) :=
  graph.edges.foldl
    (fun flows pe =>
      let thetaI := (mget angles pe.2.sourceId).getD 0
      let thetaJ := (mget angles pe.2.targetId).getD 0
      mset flows pe.1 ((thetaI - thetaJ) / pe.2.reactance))
    []

structure PowerFlowResult where
  flows : List (String × ℚ)
  utilizations : List (String × ℚ)
deriving DecidableEq, Repr

/-- Slack-bus selection: scan the sorted node ids for the highest-capacity
generator (`("", none)` models the `('', -Infinity)` start); the JS fallback
`if (!slackNodeId) slackNodeId = sortedNodeIds[0]` keeps the first id. -/
def selectSlack (graph : GridGraph) : String :=
  let sortedNodeIds := (graph.nodes.map Prod.fst).insertionSort strLe
  let chosen := sortedNodeIds.foldl
    (fun (acc : String × Option ℚ) nodeId =>
      match mget graph.nodes nodeId with
      | none => acc
      | some node =>
        match acc.2 with
        | none =>
          if node.type = NodeType.generator then (nodeId, some node.capacityMW) else acc
        | some maxCapacity =>
          if node.type = NodeType.generator ∧ maxCapacity < node.capacityMW then
            (nodeId, some node.capacityMW)
          else acc)
    ("", none)
  if chosen.1 = "" then sortedNodeIds.headD "" else chosen.1

/-- The isolated-node test of `runPowerFlow`: no incident edge whose state
differs from `tripped`. -/
def isolatedInGraph (graph : GridGraph) (nodeId : String) : Bool :=
  !(((mget graph.edgeIndex nodeId).getD []).any (fun eid =>
    match mget graph.edges eid with
    | some e => decide (e.state ≠ EdgeState.tripped)
    | none => false))

/-- `runPowerFlow(graph, injections)`: slack selection, double rebalance with
isolated-node zeroing, angle solve, flow derivation and utilizations. -/
def runPowerFlow (graph : GridGraph) (injections : List (String × ℚ)) : PowerFlowResult :=
  let slackNodeId := selectSlack graph
  let imbalance0 := valuesSum injections
  let balanced1 := mset injections slackNodeId (((mget injections slackNodeId).getD 0) - imbalance0)
  let balanced2 := (graph.nodes.map Prod.fst).foldl
    (fun m nodeId => if isolatedInGraph graph nodeId then mset m nodeId 0 else m)
    balanced1
  let imbalance1 := valuesSum balanced2
  let balanced3 := mset balanced2 slackNodeId (((mget balanced2 slackNodeId).getD 0) - imbalance1)
  let angles := computeAngles graph balanced3 slackNodeId
  let flows := deriveFlows graph angles
  let utilizations := graph.edges.foldl
    (fun m pe => mset m pe.1 (|(mget flows pe.1).getD 0| / pe.2.capacityMW))
    []
  ⟨flows, utilizations⟩

-- ---------------------------------------------------------------------------
-- cascade.ts — runCascade
-- ---------------------------------------------------------------------------

structure CascadeResult where
  finalGraph : GridGraph
  flows : List (String × ℚ)
  utilizations : List (String × ℚ)
  trippedEdges : Finset String
  iterations : ℕ
deriving DecidableEq

/-- The `while (true)` loop of `runCascade`.  The loop increments `iterations`
every pass and stops as soon as `iterations ≥ maxIterations`, so passing
`fuel := maxIterations` makes the structural fuel exact: fuel 0 is only
reached with `iterations = maxIterations`, where the source loop also stops
and returns the current state unchanged. -/
def cascadeLoop (injections : List (String × ℚ)) (maxIterations : ℕ) :
    ℕ → GridGraph → Finset String → List (String × ℚ) → List (String × ℚ) → ℕ → CascadeResult
  | 0, currentGraph, currentTripped, currentUtils, currentFlows, iterations =>
    ⟨currentGraph, currentFlows, currentUtils, currentTripped, iterations⟩
  | fuel + 1, currentGraph, currentTripped, currentUtils, currentFlows, iterations =>
    let overloaded := detectOverloads currentUtils currentTripped
    if overloaded = [] ∨ maxIterations ≤ iterations then
      ⟨currentGraph, currentFlows, currentUtils, currentTripped, iterations⟩
    else
      let newTripped := currentTripped ∪ overloaded.toFinset
      let newGraph := tripEdges currentGraph overloaded
      let adjustedInjections := adjustInjectionsForIslanding newGraph injections newTripped
      let pf := runPowerFlow newGraph adjustedInjections
      cascadeLoop injections maxIterations fuel newGraph newTripped
        pf.utilizations pf.flows (iterations + 1)

/-- `runCascade(graph, injections, initialUtilizations, initialTripped,
maxIterations = 20)`: seed the flows with zeros for every edge, then iterate
detect → batch-trip → island-adjust → re-solve until stable or capped. -/
def runCascade (graph : GridGraph) (injections : List (String × ℚ))
    (initialUtilizations : List (String × ℚ)) (initialTripped : Finset String)
    (maxIterations : ℕ := 20) : CascadeResult :=
  let currentFlows := graph.edges.foldl (fun m pe => mset m pe.1 (0 : ℚ)) []
  cascadeLoop injections maxIterations maxIterations graph initialTripped
    initialUtilizations currentFlows 0

-- ---------------------------------------------------------------------------
-- state.ts — buildInjections
-- ---------------------------------------------------------------------------

/-- Node order used by `buildInjections`: values sorted by id
(`localeCompare` modelled as code-point order). -/
def nodeIdOrder (a b : GridNode) : Prop := a.id ≤ b.id

instance : DecidableRel nodeIdOrder := fun a b => inferInstanceAs (Decidable (a.id ≤ b.id))

instance : IsTotal GridNode nodeIdOrder := ⟨fun a b => le_total a.id b.id⟩

instance : IsTrans GridNode nodeIdOrder := ⟨fun _ _ _ h h' => le_trans h h'⟩

/-- One step of the first `buildInjections` pass over the `(index, node)`
pairs: seed injections per node type and collect generator ids. -/
def injectionPassStep (sinF : ℚ → ℚ) (seed : ℚ)
    (acc : List (String × ℚ) × List String) (p : ℕ × GridNode) :
    List (String × ℚ) × List String :=
  match p.2.type with
  | NodeType.generator =>
    let raw := sinF (seed * ((p.1 : ℚ) + 1) * 17)
    let loadFactor := raw * 0.175 + 0.775
    (mset acc.1 p.2.id (p.2.capacityMW * loadFactor), acc.2 ++ [p.2.id])
  | NodeType.load =>
    let raw := sinF (seed * ((p.1 : ℚ) + 1) * 17 + 1)
    let demandFactor := raw * 0.1 + 0.45
    (mset acc.1 p.2.id (-p.2.capacityMW * demandFactor), acc.2)
  | _ => (mset acc.1 p.2.id 0, acc.2)

/-- The generator's lookup `graph.nodes.get(genId)?.capacityMW ?? 0`. -/
def genCapacityLookup (graph : GridGraph) (genId : String) : ℚ :=
  ((mget graph.nodes genId).map GridNode.capacityMW).getD 0

/-- `buildInjections(graph, seed)`: seeded per-type injections over the
id-sorted nodes, then proportional redistribution of the imbalance across
generators (skipped when `|imbalance| ≤ 1e-9`, no generators exist, or the
total generator capacity is not positive). -/
def buildInjections (sinF : ℚ → ℚ) (graph : GridGraph) (seed : ℚ) : List (String × ℚ) :=
  let sortedNodes := (graph.nodes.map Prod.snd).insertionSort nodeIdOrder
  let pass := sortedNodes.enum.foldl (injectionPassStep sinF seed) ([], [])
  let injections := pass.1
  let generatorIds := pass.2
  let imbalance := valuesSum injections
  if generatorIds ≠ [] ∧ 1e-9 < |imbalance| then
    let totalGenCapacity :=
      generatorIds.foldl (fun s genId => s + genCapacityLookup graph genId) 0
    if 0 < totalGenCapacity then
      generatorIds.foldl
        (fun inj genId =>
          let weight := genCapacityLookup graph genId / totalGenCapacity
          mset inj genId (((mget inj genId).getD 0) - imbalance * weight))
        injections
    else injections
  else injections

-- ---------------------------------------------------------------------------
-- state.ts / engine.ts — SimulationState, updateStateWithFlows, applyOverload,
-- simulateStep
-- ---------------------------------------------------------------------------

structure SimulationState where
  graph : GridGraph
  flows : List (String × ℚ)
  utilizations : List (String × ℚ)
  trippedEdges : Finset String
  blackoutProbability : ℚ
  totalLoadMW : ℚ
  totalGenerationMW : ℚ
  reserveMarginPct : ℚ
  seed : ℚ
  stepCount : ℕ
deriving DecidableEq

/-- `updateStateWithFlows(state, flows, utilizations)`: recompute the blackout
probability (tripped or > 0.9-utilized edges over all edges) and advance the
step counter. -/
def updateStateWithFlows (st : SimulationState) (flows utilizations : List (String × ℚ)) :
    SimulationState :=
  let totalEdges := st.graph.edges.length
  let criticalCount := st.graph.edges.foldl
    (fun cnt pe =>
      let util := (mget utilizations pe.1).getD 0
      let isTripped := pe.2.state = EdgeState.tripped ∨ pe.1 ∈ st.trippedEdges
      if isTripped ∨ (0.9 : ℚ) < util then cnt + 1 else cnt)
    (0 : ℕ)
  let blackoutProbability := if 0 < totalEdges then (criticalCount : ℚ) / (totalEdges : ℚ) else 0
  { st with
    flows := flows
    utilizations := utilizations
    blackoutProbability := blackoutProbability
    stepCount := st.stepCount + 1 }

/-- `applyOverload(state, edgeId, overloadFactor)`: divide one edge's capacity
by the factor and re-solve; an unknown edge id returns the state unmodified. -/
def applyOverload (sinF : ℚ → ℚ) (st : SimulationState) (edgeId : String)
    (overloadFactor : ℚ) : SimulationState :=
  match mget st.graph.edges edgeId with
  | none => st
  | some edge =>
    let newCapacityMW := edge.capacityMW / overloadFactor
    let newEdges := mset st.graph.edges edgeId { edge with capacityMW := newCapacityMW }
    let newGraph : GridGraph :=
      { nodes := st.graph.nodes, edges := newEdges
        adjacency := st.graph.adjacency, edgeIndex := st.graph.edgeIndex }
    let injections := buildInjections sinF newGraph st.seed
    let pf := runPowerFlow newGraph injections
    { st with graph := newGraph, flows := pf.flows, utilizations := pf.utilizations }

/-- `simulateStep(state)`: injections → baseline solve → cascade →
`updateStateWithFlows` assembly (the wall-clock budget check is advisory and
out of scope). -/
def simulateStep (sinF : ℚ → ℚ) (st : SimulationState) : SimulationState :=
  let injections := buildInjections sinF st.graph st.seed
  let baseline := runPowerFlow st.graph injections
  let cascadeResult := runCascade st.graph injections baseline.utilizations st.trippedEdges
  let intermediateState : SimulationState :=
    { st with graph := cascadeResult.finalGraph, trippedEdges := cascadeResult.trippedEdges }
  updateStateWithFlows intermediateState
    (if 0 < cascadeResult.flows.length then cascadeResult.flows else baseline.flows)
    (if 0 < cascadeResult.utilizations.length then cascadeResult.utilizations
     else baseline.utilizations)

-- ---------------------------------------------------------------------------
-- Concrete fixtures used by counterexamples and witnesses
-- ---------------------------------------------------------------------------

/-- A sine stand-in taking the prescribed values `g` at 17 and `l` at 35 — the
two arguments `buildInjections` feeds to `Math.sin` on the two-node fixture
graph with seed 1.  Quantifying over `g`, `l` with `|g| ≤ 1`, `|l| ≤ 1` covers
the true values of `Math.sin`. -/
def sinTwoPoint (g l : ℚ) : ℚ → ℚ :=
  fun t => if t = 17 then g else if t = 35 then l else 0

def nodeA : GridNode := ⟨"A", NodeType.generator, "gen A", 0, 0, 100, 0⟩

def nodeB : GridNode := ⟨"B", NodeType.load, "load B", 0, 0, 100, 0⟩

def edgeAB : GridEdge := ⟨"L1", "A", "B", 200, 1, 1, EdgeState.normal⟩

/-- Two-node, one-line fixture graph (exactly what
`createGraph [nodeA, nodeB] [edgeAB]` produces). -/
def graphAB : GridGraph :=
  { nodes := [("A", nodeA), ("B", nodeB)]
    edges := [("L1", edgeAB)]
    adjacency := [("A", ["B"]), ("B", ["A"])]
    edgeIndex := [("A", ["L1"]), ("B", ["L1"])] }

/-- Step-0 state over `graphAB`, seed 1, nothing tripped. -/
def stateAB : SimulationState :=
  ⟨graphAB, [], [], ∅, 0, 0, 0, 0, 1, 0⟩

def nodeEmptyId : GridNode := ⟨"", NodeType.generator, "gen with empty id", 0, 0, 10, 0⟩

def edgeEmptyB : GridEdge := ⟨"L1", "", "B", 10, 1, 1, EdgeState.normal⟩

/-- Fixture whose only generator has the empty string as id (what
`createGraph [nodeEmptyId, nodeB] [edgeEmptyB]` produces). -/
def graphEmptyId : GridGraph :=
  { nodes := [("", nodeEmptyId), ("B", nodeB)]
    edges := [("L1", edgeEmptyB)]
    adjacency := [("", ["B"]), ("B", [""])]
    edgeIndex := [("", ["L1"]), ("B", ["L1"])] }

def nodeGen10 : GridNode := ⟨"A", NodeType.generator, "gen A", 0, 0, 10, 0⟩

def nodeLoadC : GridNode := ⟨"C", NodeType.load, "load C", 0, 0, 5, 0⟩

/-- Fixture with one connected generator `A`, one connected load `B` and one
islanded load `C` (what `createGraph [nodeGen10, nodeB, nodeLoadC] [edgeAB10]`
produces, `edgeAB10` being the `A`–`B` line below). -/
def edgeAB10 : GridEdge := ⟨"L1", "A", "B", 10, 1, 1, EdgeState.normal⟩

def graphIsland : GridGraph :=
  { nodes := [("A", nodeGen10), ("B", nodeB), ("C", nodeLoadC)]
    edges := [("L1", edgeAB10)]
    adjacency := [("A", ["B"]), ("B", ["A"]), ("C", [])]
    edgeIndex := [("A", ["L1"]), ("B", ["L1"]), ("C", [])] }

/-- State over the empty graph (for exercising the unknown-edge-id branch). -/
def stateEmpty : SimulationState :=
  ⟨⟨[], [], [], []⟩, [], [], ∅, 0, 0, 0, 0, 0, 0⟩

/-- Spec-side abbreviation (used only in theorem statements): the total rated
capacity of the generator nodes of a graph. -/
def generatorCapacityTotal (graph : GridGraph) : ℚ :=
  (((graph.nodes.map Prod.snd).filter
      (fun n => decide (n.type = NodeType.generator))).map GridNode.capacityMW).sum

/-- Spec-side abbreviation: the utilization a map assigns to an id (0 when
absent), used to state the ordering property of `detectOverloads`. -/
def utilAt (utilizations : List (String × ℚ)) (id : String) : ℚ :=
  (mget utilizations id).getD 0

/-- The per-node value the first `buildInjections` pass stores (the closed form
of `injectionPassStep`'s map update), used to characterise the pass. -/
def baseInjectionValue (sinF : ℚ → ℚ) (seed : ℚ) (q : ℕ × GridNode) : ℚ :=
  match q.2.type with
  | NodeType.generator =>
    q.2.capacityMW * (sinF (seed * ((q.1 : ℚ) + 1) * 17) * 0.175 + 0.775)
  | NodeType.load =>
    -q.2.capacityMW * (sinF (seed * ((q.1 : ℚ) + 1) * 17 + 1) * 0.1 + 0.45)
  | _ => 0

-- ---------------------------------------------------------------------------
-- Association-list (JS Map) lemmas
-- ---------------------------------------------------------------------------

theorem mget_cons {α : Type} (p : String × α) (ps : List (String × α)) (k : String) :
    mget (p :: ps) k = if p.1 = k then some p.2 else mget ps k := by
  by_cases h : p.1 = k
  · have hb : (p.1 == k) = true := beq_iff_eq.mpr h
    simp [mget, List.find?, hb, h]
  · have hb : (p.1 == k) = false := beq_eq_false_iff_ne.mpr h
    simp [mget, List.find?, hb, h]

theorem mget_mset_self {α : Type} (m : List (String × α)) (k : String) (v : α) :
    mget (mset m k v) k = some v := by
  induction m with
  | nil => simp [mset, mget_cons]
  | cons p ps ih => by_cases h : p.1 = k <;> simp [mset, h, mget_cons, ih]

theorem mget_mset_ne {α : Type} (m : List (String × α)) (k k' : String) (v : α)
    (h : k' ≠ k) : mget (mset m k v) k' = mget m k' := by
  induction m with
  | nil => simp [mset, mget_cons, mget, Ne.symm h]
  | cons p ps ih =>
    by_cases hp : p.1 = k
    · subst hp
      simp [mset, mget_cons, Ne.symm h]
    · simp [mset, hp, mget_cons, ih]

theorem valuesSum_mset (m : List (String × ℚ)) (k : String) (v : ℚ) :
    valuesSum (mset m k v) = valuesSum m + v - (mget m k).getD 0 := by
  induction m with
  | nil => simp [mset, valuesSum, mget]
  | cons p ps ih =>
    by_cases h : p.1 = k
    · simp [mset, h, valuesSum, mget_cons]
      ring
    · rw [show mset (p :: ps) k v = p :: mset ps k v from by simp [mset, h]]
      simp only [valuesSum, List.map_cons, List.sum_cons] at ih ⊢
      rw [ih, mget_cons, if_neg h]
      ring

theorem mset_of_not_mem {α : Type} (m : List (String × α)) (k : String) (v : α)
    (h : k ∉ m.map Prod.fst) : mset m k v = m ++ [(k, v)] := by
  induction m with
  | nil => simp [mset]
  | cons p ps ih =>
    simp only [List.map_cons, List.mem_cons, not_or] at h
    have hne : ¬ p.1 = k := fun he => h.1 he.symm
    simp [mset, hne, ih h.2]

theorem mget_eq_none_iff {α : Type} (m : List (String × α)) (k : String) :
    mget m k = none ↔ k ∉ m.map Prod.fst := by
  induction m with
  | nil => simp [mget]
  | cons p ps ih =>
    by_cases h : p.1 = k
    · subst h
      simp [mget_cons]
    · rw [mget_cons, if_neg h]
      simp only [List.map_cons, List.mem_cons, not_or]
      rw [ih]
      constructor
      · intro hk
        exact ⟨fun he => h he.symm, hk⟩
      · intro hk
        exact hk.2

theorem mget_of_nodup_mem {α : Type} (m : List (String × α)) (k : String) (v : α)
    (hn : NodupKeys m) (hm : (k, v) ∈ m) : mget m k = some v := by
  induction m with
  | nil => simp at hm
  | cons p ps ih =>
    simp only [NodupKeys, List.map_cons, List.nodup_cons] at hn
    rcases List.mem_cons.mp hm with h | h
    · subst h
      simp [mget_cons]
    · have hne : p.1 ≠ k := by
        intro he
        exact hn.1 (he ▸ (List.mem_map.mpr ⟨(k, v), h, rfl⟩))
      simp [mget_cons, hne, ih hn.2 h]

theorem foldl_mset_fresh {α ι : Type} (key : ι → String) (val : ι → α) :
    ∀ (l : List ι) (acc : List (String × α)),
      (∀ x ∈ l, key x ∉ acc.map Prod.fst) → (l.map key).Nodup →
      l.foldl (fun m x => mset m (key x) (val x)) acc =
        acc ++ l.map (fun x => (key x, val x)) := by
  intro l
  induction l with
  | nil => intro acc _ _; simp
  | cons x xs ih =>
    intro acc hfresh hnd
    simp only [List.map_cons, List.nodup_cons] at hnd
    have hstep : mset acc (key x) (val x) = acc ++ [(key x, val x)] :=
      mset_of_not_mem acc (key x) (val x) (hfresh x (List.mem_cons_self x xs))
    have hfresh' : ∀ y ∈ xs, key y ∉ (acc ++ [(key x, val x)]).map Prod.fst := by
      intro y hy
      simp only [List.map_append, List.mem_append, List.map_cons, List.map_nil,
        List.mem_singleton, not_or]
      refine ⟨hfresh y (List.mem_cons_of_mem x hy), ?_⟩
      intro he
      exact hnd.1 (he ▸ (List.mem_map.mpr ⟨y, hy, rfl⟩))
    simp only [List.foldl_cons, hstep, ih (acc ++ [(key x, val x)]) hfresh' hnd.2,
      List.map_cons, List.append_assoc, List.singleton_append]

theorem foldl_mset_preserve {α ι : Type} (key : ι → String)
    (g : List (String × α) → ι → α) :
    ∀ (l : List ι) (m : List (String × α)) (k : String), (∀ x ∈ l, key x ≠ k) →
      mget (l.foldl (fun m x => mset m (key x) (g m x)) m) k = mget m k := by
  intro l
  induction l with
  | nil => intro m k _; rfl
  | cons x xs ih =>
    intro m k h
    simp only [List.foldl_cons]
    rw [ih _ _ (fun y hy => h y (List.mem_cons_of_mem x hy)),
      mget_mset_ne _ _ _ _ (fun he => h x (List.mem_cons_self x xs) he.symm)]

theorem foldl_mset_zero_mem :
    ∀ (l : List String) (m : List (String × ℚ)) (k : String), k ∈ l →
      mget (l.foldl (fun m i => mset m i (0 : ℚ)) m) k = some 0 := by
  intro l
  induction l with
  | nil => intro m k h; simp at h
  | cons x xs ih =>
    intro m k hk
    by_cases hmem : k ∈ xs
    · exact ih _ _ hmem
    · have hkx : k = x := by
        rcases List.mem_cons.mp hk with h | h
        · exact h
        · exact absurd h hmem
      subst hkx
      simp only [List.foldl_cons]
      rw [foldl_mset_preserve (fun i => i) (fun _ _ => (0 : ℚ)) xs _ k
          (fun y hy he => hmem (he ▸ hy)), mget_mset_self]

theorem foldl_add_sum {ι : Type} (f : ι → ℚ) :
    ∀ (l : List ι) (a : ℚ), l.foldl (fun s x => s + f x) a = a + (l.map f).sum := by
  intro l
  induction l with
  | nil => intro a; simp
  | cons x xs ih => intro a; simp [ih, add_assoc]

-- ---------------------------------------------------------------------------
-- C1 — cascade termination and iteration bound
-- ---------------------------------------------------------------------------

theorem cascadeLoop_iterations_le (injections : List (String × ℚ)) (maxIterations : ℕ) :
    ∀ (fuel : ℕ) (g : GridGraph) (tr : Finset String) (u f : List (String × ℚ)) (it : ℕ),
      it ≤ maxIterations →
      (cascadeLoop injections maxIterations fuel g tr u f it).iterations ≤ maxIterations := by
  intro fuel
  induction fuel with
  | zero =>
    intro g tr u f it hit
    simpa only [cascadeLoop] using hit
  | succ n ih =>
    intro g tr u f it hit
    simp only [cascadeLoop]
    split
    · exact hit
    · rename_i hcond
      push_neg at hcond
      exact ih _ _ _ _ _ (Nat.succ_le_of_lt hcond.2)

/-- C1: for every graph, injection map, initial utilization map, initial
tripped set and every `maxIterations`, `runCascade` terminates (it is a total
function whose loop fuel is exactly the iteration cap) and the returned
iteration count never exceeds `maxIterations`. -/
theorem runCascade_iterations_le (graph : GridGraph)
    (injections initialUtilizations : List (String × ℚ)) (initialTripped : Finset String)
    (maxIterations : ℕ) :
    (runCascade graph injections initialUtilizations initialTripped
        maxIterations).iterations ≤ maxIterations := by
  simp only [runCascade]
  exact cascadeLoop_iterations_le _ _ _ _ _ _ _ _ (Nat.zero_le _)

-- ---------------------------------------------------------------------------
-- C5 — stability idempotence of runCascade
-- ---------------------------------------------------------------------------

theorem cascadeLoop_stop (injections : List (String × ℚ)) (maxIterations fuel : ℕ)
    (g : GridGraph) (tr : Finset String) (u f : List (String × ℚ)) (it : ℕ)
    (h : detectOverloads u tr = []) :
    cascadeLoop injections maxIterations fuel g tr u f it = ⟨g, f, u, tr, it⟩ := by
  cases fuel with
  | zero => rfl
  | succ n => simp [cascadeLoop, h]

/-- C5 (amended): when the first overload-detection pass finds nothing,
`runCascade` returns the input graph, the initial utilizations, the input
tripped set and iteration count 0 — but its `flows` field is the all-zero
seed map over the graph's edges, not any "input flows" (`runCascade` has no
flows input). -/
theorem runCascade_stable_of_no_overloads (graph : GridGraph)
    (injections initialUtilizations : List (String × ℚ)) (initialTripped : Finset String)
    (maxIterations : ℕ) (hnodup : NodupKeys graph.edges)
    (h : detectOverloads initialUtilizations initialTripped = []) :
    runCascade graph injections initialUtilizations initialTripped maxIterations =
      ⟨graph, graph.edges.map (fun pe => (pe.1, 0)), initialUtilizations,
        initialTripped, 0⟩ := by
  have hflows : graph.edges.foldl (fun m pe => mset m pe.1 (0 : ℚ)) [] =
      graph.edges.map (fun pe => (pe.1, (0 : ℚ))) := by
    simpa using foldl_mset_fresh (fun pe : String × GridEdge => pe.1) (fun _ => (0 : ℚ))
      graph.edges [] (by simp) hnodup
  simp only [runCascade]
  rw [cascadeLoop_stop _ _ _ _ _ _ _ _ h, hflows]

/-- C5 (counterexample to the flows clause as stated): on the two-node fixture
with initial utilization 1/2 on line `L1` (the utilization a 100 MW flow on the
200 MW line produces) and nothing overloaded, `runCascade` returns the
zero-seeded flows map, not the flows that accompanied its utilization input. -/
theorem runCascade_flows_counterexample :
    (runCascade graphAB [("A", 5), ("B", -5)] [("L1", 1/2)] ∅).flows = [("L1", 0)] ∧
    (runCascade graphAB [("A", 5), ("B", -5)] [("L1", 1/2)] ∅).flows ≠ [("L1", (100 : ℚ))] ∧
    detectOverloads [("L1", 1/2)] ∅ = [] := by
  have hdet : detectOverloads [("L1", (1 : ℚ)/2)] ∅ = [] := by
    norm_num [detectOverloads, List.filter]
  have hrc : runCascade graphAB [("A", 5), ("B", -5)] [("L1", 1/2)] ∅ =
      ⟨graphAB, [("L1", 0)], [("L1", 1/2)], ∅, 0⟩ := by
    simp only [runCascade]
    rw [cascadeLoop_stop _ _ _ _ _ _ _ _ hdet]
    simp [graphAB, mset]
  refine ⟨?_, ?_, hdet⟩
  · rw [hrc]
  · rw [hrc]
    norm_num

/-- C5 witness for the amended theorem, at the same fixture. -/
theorem runCascade_stable_witness :
    NodupKeys graphAB.edges ∧ detectOverloads [("L1", (1 : ℚ)/2)] ∅ = [] ∧
    runCascade graphAB [("A", 7), ("B", -7)] [("L1", 1/2)] ∅ =
      ⟨graphAB, [("L1", 0)], [("L1", 1/2)], ∅, 0⟩ := by
  have hnd : NodupKeys graphAB.edges := by simp [NodupKeys, graphAB]
  have hdet : detectOverloads [("L1", (1 : ℚ)/2)] ∅ = [] := by
    norm_num [detectOverloads, List.filter]
  refine ⟨hnd, hdet, ?_⟩
  have := runCascade_stable_of_no_overloads graphAB [("A", 7), ("B", -7)]
    [("L1", 1/2)] ∅ 20 hnd hdet
  simpa [graphAB] using this

-- ---------------------------------------------------------------------------
-- C10 — applyOverload with an unknown edge id
-- ---------------------------------------------------------------------------

/-- C10: `applyOverload` on an edge id absent from the graph returns the input
state itself, completely unchanged. -/
theorem applyOverload_unknown_edge (sinF : ℚ → ℚ) (st : SimulationState) (edgeId : String)
    (overloadFactor : ℚ) (h : mget st.graph.edges edgeId = none) :
    applyOverload sinF st edgeId overloadFactor = st := by
  simp [applyOverload, h]

/-- C10 witness: the empty-graph state with a made-up edge id. -/
theorem applyOverload_unknown_edge_witness :
    mget stateEmpty.graph.edges "X" = none ∧
    applyOverload (fun _ => 0) stateEmpty "X" 2 = stateEmpty :=
  ⟨rfl, applyOverload_unknown_edge (fun _ => 0) stateEmpty "X" 2 rfl⟩

-- ---------------------------------------------------------------------------
-- C6 — createGraph failure conditions
-- ---------------------------------------------------------------------------

theorem mget_foldl_mset_isSome {α ι : Type} (key : ι → String) (val : ι → α) :
    ∀ (l : List ι) (acc : List (String × α)) (k : String),
      (mget (l.foldl (fun m x => mset m (key x) (val x)) acc) k).isSome = true ↔
        ((mget acc k).isSome = true ∨ k ∈ l.map key) := by
  intro l
  induction l with
  | nil => intro acc k; simp
  | cons x xs ih =>
    intro acc k
    simp only [List.foldl_cons, List.map_cons, List.mem_cons]
    rw [ih]
    by_cases h : k = key x
    · subst h
      simp [mget_mset_self]
    · rw [mget_mset_ne _ _ _ _ h]
      simp [h]

theorem createGraphLoop_ok_iff (nodeMap : List (String × GridNode)) :
    ∀ (es : List GridEdge)
      (acc : List (String × GridEdge) × List (String × List String) × List (String × List String)),
      (∃ r, createGraphLoop nodeMap es acc = Except.ok r) ↔
        ∀ e ∈ es, (mget nodeMap e.sourceId).isSome = true ∧
          (mget nodeMap e.targetId).isSome = true := by
  intro es
  induction es with
  | nil =>
    intro acc
    simp [createGraphLoop]
  | cons e rest ih =>
    intro acc
    obtain ⟨edgeMap, adjacency, edgeIndex⟩ := acc
    by_cases hs : (mget nodeMap e.sourceId).isNone
    · simp only [createGraphLoop, hs, if_true]
      constructor
      · rintro ⟨r, hr⟩
        exact absurd hr (by simp)
      · intro h
        have := (h e (List.mem_cons_self e rest)).1
        rw [Option.isNone_iff_eq_none] at hs
        simp [hs] at this
    · by_cases ht : (mget nodeMap e.targetId).isNone
      · simp only [createGraphLoop, hs, ht, if_false, if_true]
        constructor
        · rintro ⟨r, hr⟩
          exact absurd hr (by simp)
        · intro h
          have := (h e (List.mem_cons_self e rest)).2
          rw [Option.isNone_iff_eq_none] at ht
          simp [ht] at this
      · have hs' : (mget nodeMap e.sourceId).isNone = false := by
          simp only [Option.isNone_eq_false_iff]
          exact Option.ne_none_iff_isSome.mp (by simpa using hs)
        have ht' : (mget nodeMap e.targetId).isNone = false := by
          simp only [Option.isNone_eq_false_iff]
          exact Option.ne_none_iff_isSome.mp (by simpa using ht)
        simp only [createGraphLoop, hs', ht', Bool.false_eq_true, if_false]
        rw [ih]
        constructor
        · intro h
          intro e' he'
          rcases List.mem_cons.mp he' with he' | he'
          · subst he'
            constructor
            · exact Option.ne_none_iff_isSome.mp (by simpa using hs)
            · exact Option.ne_none_iff_isSome.mp (by simpa using ht)
          · exact h e' he'
        · intro h e' he'
          exact h e' (List.mem_cons_of_mem e he')

/-- C6 (amended): `createGraph` fails precisely when some edge references a
node id that is not among the node ids; self-loops and non-positive
capacity/reactance do not make it fail. -/
theorem createGraph_ok_iff (nodes : List GridNode) (edges : List GridEdge) :
    (∃ g, createGraph nodes edges = Except.ok g) ↔
      ∀ e ∈ edges, e.sourceId ∈ nodes.map GridNode.id ∧
        e.targetId ∈ nodes.map GridNode.id := by
  have hnode : ∀ k, (mget (nodes.foldl (fun m node => mset m node.id node) []) k).isSome = true ↔
      k ∈ nodes.map GridNode.id := by
    intro k
    rw [mget_foldl_mset_isSome GridNode.id (fun n => n) nodes [] k]
    simp [mget]
  constructor
  · rintro ⟨g, hg⟩
    simp only [createGraph] at hg
    have hok : ∃ r, createGraphLoop (nodes.foldl (fun m node => mset m node.id node) []) edges
        ([], nodes.foldl (fun m node => mset m node.id ([] : List String)) [],
          nodes.foldl (fun m node => mset m node.id ([] : List String)) []) = Except.ok r := by
      cases hcl : createGraphLoop (nodes.foldl (fun m node => mset m node.id node) []) edges
          ([], nodes.foldl (fun m node => mset m node.id ([] : List String)) [],
            nodes.foldl (fun m node => mset m node.id ([] : List String)) []) with
      | error msg => rw [hcl] at hg; exact absurd hg (by simp [Except.map])
      | ok r => exact ⟨r, rfl⟩
    have := (createGraphLoop_ok_iff _ edges _).mp hok
    intro e he
    rcases this e he with ⟨h1, h2⟩
    exact ⟨(hnode _).mp h1, (hnode _).mp h2⟩
  · intro h
    have hok := (createGraphLoop_ok_iff (nodes.foldl (fun m node => mset m node.id node) [])
      edges ([], nodes.foldl (fun m node => mset m node.id ([] : List String)) [],
        nodes.foldl (fun m node => mset m node.id ([] : List String)) [])).mpr
      (fun e he => ⟨(hnode _).mpr (h e he).1, (hnode _).mpr (h e he).2⟩)
    obtain ⟨r, hr⟩ := hok
    refine ⟨GridGraph.mk (nodes.foldl (fun m node => mset m node.id node) [])
      r.1 r.2.1 r.2.2, ?_⟩
    simp only [createGraph, hr]
    rfl

/-- The self-loop edge with non-positive capacity and reactance used to refute
the claim that `createGraph` rejects such edges. -/
def selfLoopEdge : GridEdge := ⟨"E", "A", "A", -1, 0, 1, EdgeState.normal⟩

/-- C6 (counterexample to the claim as stated): a self-loop with capacity −1
and reactance 0 on an existing node is accepted by `createGraph`. -/
theorem createGraph_selfLoop_counterexample :
    (∃ g, createGraph [nodeA] [selfLoopEdge] = Except.ok g) ∧
    selfLoopEdge.sourceId = selfLoopEdge.targetId ∧
    selfLoopEdge.capacityMW ≤ 0 ∧ selfLoopEdge.reactance ≤ 0 := by
  refine ⟨?_, rfl, by norm_num [selfLoopEdge], by norm_num [selfLoopEdge]⟩
  rw [createGraph_ok_iff]
  intro e he
  simp only [List.mem_singleton] at he
  subst he
  simp [selfLoopEdge, nodeA]

-- ---------------------------------------------------------------------------
-- C8 — solveLinearSystem totality and singular fallback
-- ---------------------------------------------------------------------------

theorem foldl_set_length {α : Type} (g : List α → ℕ → α) :
    ∀ (l : List ℕ) (x : List α),
      (l.foldl (fun x row => x.set row (g x row)) x).length = x.length := by
  intro l
  induction l with
  | nil => intro x; rfl
  | cons r rs ih => intro x; rw [List.foldl_cons, ih, List.length_set]

theorem backSubst_length (n : ℕ) (M : List (List ℚ)) (rhs : List ℚ) :
    (backSubst n M rhs).length = n := by
  simp only [backSubst]
  rw [foldl_set_length (fun x row =>
    ((((List.range n).drop (row + 1)).foldl
      (fun s c => s - getEntry M row c * x.getD c 0) (rhs.getD row 0)) /
      getEntry M row row))]
  exact List.length_replicate n 0

/-- C8: `solveLinearSystem` is total: it always returns a vector of the
right-hand side's length, and whenever forward elimination aborts on a pivot
magnitude below `1e-12` it returns the all-zero vector instead of failing. -/
theorem solveLinearSystem_total (A : List (List ℚ)) (b : List ℚ) :
    (solveLinearSystem A b).length = b.length ∧
    (forwardElimAux b.length b.length 0 A b = none →
      solveLinearSystem A b = List.replicate b.length 0) := by
  constructor
  · simp only [solveLinearSystem]
    cases h : forwardElimAux b.length b.length 0 A b with
    | none => simp
    | some Mrhs => simp [backSubst_length]
  · intro h
    simp [solveLinearSystem, h]

/-- C8 witness: the all-zero 2×2 system aborts elimination and yields `[0, 0]`. -/
theorem solveLinearSystem_total_witness :
    forwardElimAux 2 2 0 [[0, 0], [0, 0]] [1, 1] = none ∧
    solveLinearSystem [[0, 0], [0, 0]] [(1 : ℚ), 1] = [0, 0] := by
  have h : forwardElimAux 2 2 0 [[0, 0], [0, 0]] [(1 : ℚ), 1] = none := by
    norm_num [forwardElimAux, pivotSearch, getEntry]
  refine ⟨h, ?_⟩
  have h2 := (solveLinearSystem_total [[0, 0], [0, 0]] [(1 : ℚ), 1]).2 (by simpa using h)
  simpa using h2

-- ---------------------------------------------------------------------------
-- C7 — detectOverloads membership and ordering
-- ---------------------------------------------------------------------------

/-- C7 (amended): `detectOverloads` returns exactly the non-tripped ids with
utilization > 1.0, in non-increasing order of utilization; ties keep the
utilization map's iteration order (the sort is stable), they are NOT re-sorted
by edge id. -/
theorem detectOverloads_spec (utilizations : List (String × ℚ)) (trippedEdges : Finset String)
    (hnodup : NodupKeys utilizations) :
    (∀ id, id ∈ detectOverloads utilizations trippedEdges ↔
      ∃ q, (id, q) ∈ utilizations ∧ 1 < q ∧ id ∉ trippedEdges) ∧
    (detectOverloads utilizations trippedEdges).Pairwise
      (fun i j => utilAt utilizations j ≤ utilAt utilizations i) := by
  constructor
  · intro id
    simp only [detectOverloads, List.mem_map]
    constructor
    · rintro ⟨p, hp, rfl⟩
      have hp' := (List.perm_insertionSort utilDescOrder
        (utilizations.filter (fun p => decide (1 < p.2 ∧ p.1 ∉ trippedEdges)))).mem_iff.mp hp
      rw [List.mem_filter, decide_eq_true_iff] at hp'
      exact ⟨p.2, hp'.1, hp'.2.1, hp'.2.2⟩
    · rintro ⟨q, hq, h1, hnt⟩
      refine ⟨(id, q), ?_, rfl⟩
      apply (List.perm_insertionSort utilDescOrder
        (utilizations.filter (fun p => decide (1 < p.2 ∧ p.1 ∉ trippedEdges)))).mem_iff.mpr
      rw [List.mem_filter, decide_eq_true_iff]
      exact ⟨hq, h1, hnt⟩
  · have hsorted := List.sorted_insertionSort utilDescOrder
      (utilizations.filter (fun p => decide (1 < p.2 ∧ p.1 ∉ trippedEdges)))
    have hmem : ∀ p ∈ (utilizations.filter
        (fun p => decide (1 < p.2 ∧ p.1 ∉ trippedEdges))).insertionSort utilDescOrder,
        mget utilizations p.1 = some p.2 := by
      intro p hp
      have hp' := (List.perm_insertionSort utilDescOrder
        (utilizations.filter (fun p => decide (1 < p.2 ∧ p.1 ∉ trippedEdges)))).mem_iff.mp hp
      rw [List.mem_filter] at hp'
      exact mget_of_nodup_mem _ _ _ hnodup hp'.1
    simp only [detectOverloads]
    rw [List.pairwise_map]
    refine List.Pairwise.imp_of_mem ?_ hsorted
    intro a b ha hb hr
    rw [utilAt, utilAt, hmem a ha, hmem b hb]
    exact hr

/-- C7 (counterexample to the id tie-break as stated): with two equal
utilizations inserted as `E2` then `E1`, the result keeps insertion order
`[E2, E1]`, not the id order `[E1, E2]` the claim demands. -/
theorem detectOverloads_tie_counterexample :
    detectOverloads [("E2", 2), ("E1", 2)] ∅ = ["E2", "E1"] ∧ ("E1" : String) < "E2" := by
  constructor
  · norm_num [detectOverloads, List.filter, List.insertionSort, List.orderedInsert,
      utilDescOrder]
  · simp only [String.lt_iff_toList_lt]
    decide

/-- C7 witness for the amended theorem at a one-entry utilization map. -/
theorem detectOverloads_spec_witness :
    NodupKeys [("X", (3 : ℚ))] ∧
    (("X" ∈ detectOverloads [("X", (3 : ℚ))] ∅ ↔
      ∃ q, ("X", q) ∈ [("X", (3 : ℚ))] ∧ 1 < q ∧ ("X" : String) ∉ (∅ : Finset String))) ∧
    (detectOverloads [("X", (3 : ℚ))] ∅).Pairwise
      (fun i j => utilAt [("X", (3 : ℚ))] j ≤ utilAt [("X", (3 : ℚ))] i) := by
  have hnd : NodupKeys [("X", (3 : ℚ))] := by simp [NodupKeys]
  have h := detectOverloads_spec [("X", (3 : ℚ))] ∅ hnd
  exact ⟨hnd, h.1 "X", h.2⟩

-- ---------------------------------------------------------------------------
-- C9 — adjustInjectionsForIslanding
-- ---------------------------------------------------------------------------

theorem bestConnectedGen_fold_mem (islanded : List String) :
    ∀ (l : List (String × GridNode)) (acc : String × Option ℚ),
      (l.foldl (fun acc p =>
        if p.2.type = NodeType.generator ∧ ¬ islanded.contains p.1 then
          match acc.2 with
          | none => (p.1, some p.2.capacityMW)
          | some bestCapacity =>
            if bestCapacity < p.2.capacityMW then (p.1, some p.2.capacityMW) else acc
        else acc) acc).1 = acc.1 ∨
      ∃ p ∈ l, (l.foldl (fun acc p =>
        if p.2.type = NodeType.generator ∧ ¬ islanded.contains p.1 then
          match acc.2 with
          | none => (p.1, some p.2.capacityMW)
          | some bestCapacity =>
            if bestCapacity < p.2.capacityMW then (p.1, some p.2.capacityMW) else acc
        else acc) acc).1 = p.1 ∧
        p.2.type = NodeType.generator ∧ ¬ islanded.contains p.1 := by
  intro l
  induction l with
  | nil => intro acc; exact Or.inl rfl
  | cons x xs ih =>
    intro acc
    rw [List.foldl_cons]
    by_cases hcond : x.2.type = NodeType.generator ∧ ¬ islanded.contains x.1
    · have hfst : ∀ acc' : String × Option ℚ,
          (if x.2.type = NodeType.generator ∧ ¬ islanded.contains x.1 then
            match acc'.2 with
            | none => (x.1, some x.2.capacityMW)
            | some bestCapacity =>
              if bestCapacity < x.2.capacityMW then (x.1, some x.2.capacityMW) else acc'
          else acc').1 = x.1 ∨
          (if x.2.type = NodeType.generator ∧ ¬ islanded.contains x.1 then
            match acc'.2 with
            | none => (x.1, some x.2.capacityMW)
            | some bestCapacity =>
              if bestCapacity < x.2.capacityMW then (x.1, some x.2.capacityMW) else acc'
          else acc').1 = acc'.1 := by
        intro acc'
        rw [if_pos hcond]
        obtain ⟨a1, a2⟩ := acc'
        cases a2 with
        | none => exact Or.inl rfl
        | some bc =>
          dsimp only
          by_cases hlt : bc < x.2.capacityMW
          · rw [if_pos hlt]; exact Or.inl rfl
          · rw [if_neg hlt]; exact Or.inr rfl
      rcases ih (if x.2.type = NodeType.generator ∧ ¬ islanded.contains x.1 then
          match acc.2 with
          | none => (x.1, some x.2.capacityMW)
          | some bestCapacity =>
            if bestCapacity < x.2.capacityMW then (x.1, some x.2.capacityMW) else acc
        else acc) with h | ⟨p, hp, hfold, hgen, hni⟩
      · rw [h]
        rcases hfst acc with h' | h'
        · exact Or.inr ⟨x, List.mem_cons_self x xs, h', hcond.1, hcond.2⟩
        · rw [h']
          exact Or.inl rfl
      · exact Or.inr ⟨p, List.mem_cons_of_mem x hp, hfold, hgen, hni⟩
    · rw [if_neg hcond]
      rcases ih acc with h | ⟨p, hp, hfold, hgen, hni⟩
      · exact Or.inl h
      · exact Or.inr ⟨p, List.mem_cons_of_mem x hp, hfold, hgen, hni⟩

theorem bestConnectedGen_mem (graph : GridGraph) (islanded : List String) :
    (bestConnectedGen graph islanded).1 = "" ∨
      ∃ p ∈ graph.nodes, (bestConnectedGen graph islanded).1 = p.1 ∧
        p.2.type = NodeType.generator ∧ ¬ islanded.contains p.1 :=
  bestConnectedGen_fold_mem islanded graph.nodes ("", none)

/-- C9 (amended): `adjustInjectionsForIslanding` assigns injection exactly 0 to
every islanded node; and whenever the selected highest-capacity connected
generator has a non-empty id (the JS truthiness check `if (bestGenId)`), the
adjusted injections sum to within 1e-9 of zero — exactly 0 when the
rebalancing branch runs. -/
theorem adjustInjections_spec (graph : GridGraph) (injections : List (String × ℚ))
    (trippedEdges : Finset String) :
    (∀ k ∈ islandedNodes graph trippedEdges,
      mget (adjustInjectionsForIslanding graph injections trippedEdges) k = some 0) ∧
    ((bestConnectedGen graph (islandedNodes graph trippedEdges)).1 ≠ "" →
      |valuesSum (adjustInjectionsForIslanding graph injections trippedEdges)| ≤ 1e-9) := by
  have hzero : ∀ k ∈ islandedNodes graph trippedEdges,
      mget ((islandedNodes graph trippedEdges).foldl
        (fun m nodeId => mset m nodeId 0) injections) k = some 0 :=
    fun k hk => foldl_mset_zero_mem (islandedNodes graph trippedEdges) injections k hk
  constructor
  · intro k hk
    simp only [adjustInjectionsForIslanding]
    by_cases himb : (1e-9 : ℚ) < |valuesSum (List.foldl (fun m nodeId => mset m nodeId 0)
        injections (islandedNodes graph trippedEdges))|
    · rw [if_pos himb]
      by_cases hb : (bestConnectedGen graph (islandedNodes graph trippedEdges)).1 ≠ ""
      · rw [if_pos hb]
        rcases bestConnectedGen_mem graph (islandedNodes graph trippedEdges) with
          hempty | ⟨p, _, hfold, _, hni⟩
        · exact absurd hempty hb
        · rw [hfold, mget_mset_ne]
          · exact hzero k hk
          · intro hkp
            simp at hni
            exact hni (hkp ▸ hk)
      · rw [if_neg hb]
        exact hzero k hk
    · rw [if_neg himb]
      exact hzero k hk
  · intro hne
    simp only [adjustInjectionsForIslanding]
    by_cases himb : (1e-9 : ℚ) < |valuesSum (List.foldl (fun m nodeId => mset m nodeId 0)
        injections (islandedNodes graph trippedEdges))|
    · rw [if_pos himb, if_pos hne, valuesSum_mset]
      ring_nf
      norm_num
    · rw [if_neg himb]
      exact not_lt.mp himb

/-- C9 (counterexample to the claim as stated): a graph whose single connected
generator has the empty string as id.  The generator is connected and present,
the imbalance is 9, but the JS-falsy check `if (bestGenId)` skips the
rebalancing, so the adjusted injections do not sum to within 1e-9 of zero. -/
theorem adjustInjections_emptyId_counterexample :
    adjustInjectionsForIslanding graphEmptyId [("", 5), ("B", 4)] ∅ = [("", 5), ("B", 4)] ∧
    ("", nodeEmptyId) ∈ graphEmptyId.nodes ∧ nodeEmptyId.type = NodeType.generator ∧
    islandedNodes graphEmptyId ∅ = [] ∧
    ¬ |valuesSum (adjustInjectionsForIslanding graphEmptyId [("", 5), ("B", 4)] ∅)| ≤ 1e-9 := by
  have hisl : islandedNodes graphEmptyId ∅ = [] := by
    simp [islandedNodes, graphEmptyId, hasActiveEdge, mget, List.find?, edgeEmptyB,
      List.filter]
  have hbest : bestConnectedGen graphEmptyId [] = ("", some 10) := by
    simp [bestConnectedGen, graphEmptyId, nodeEmptyId, nodeB, List.foldl]
  have hadj : adjustInjectionsForIslanding graphEmptyId [("", 5), ("B", 4)] ∅ =
      [("", 5), ("B", 4)] := by
    simp only [adjustInjectionsForIslanding, hisl, List.foldl_nil, hbest]
    norm_num [valuesSum]
  refine ⟨hadj, by simp [graphEmptyId], rfl, hisl, ?_⟩
  rw [hadj]
  norm_num [valuesSum]

/-- C9 witness for the amended theorem: islanded load `C` is zeroed and the
generator `A` (non-empty id) absorbs the imbalance, so the sum is balanced. -/
theorem adjustInjections_spec_witness :
    ("C" ∈ islandedNodes graphIsland ∅) ∧
    ((bestConnectedGen graphIsland (islandedNodes graphIsland ∅)).1 ≠ "") ∧
    mget (adjustInjectionsForIslanding graphIsland [("A", 5), ("B", 3), ("C", 2)] ∅) "C"
      = some 0 ∧
    |valuesSum (adjustInjectionsForIslanding graphIsland [("A", 5), ("B", 3), ("C", 2)] ∅)|
      ≤ 1e-9 := by
  have hisl : islandedNodes graphIsland ∅ = ["C"] := by
    simp [islandedNodes, graphIsland, hasActiveEdge, mget, List.find?, edgeAB10,
      List.filter]
  have hbest : (bestConnectedGen graphIsland (islandedNodes graphIsland ∅)).1 = "A" := by
    rw [hisl]
    simp [bestConnectedGen, graphIsland, nodeGen10, nodeB, nodeLoadC, List.foldl]
  have h := adjustInjections_spec graphIsland [("A", 5), ("B", 3), ("C", 2)] ∅
  refine ⟨by rw [hisl]; simp, by rw [hbest]; simp, ?_, ?_⟩
  · exact h.1 "C" (by rw [hisl]; simp)
  · exact h.2 (by rw [hbest]; simp)

-- ---------------------------------------------------------------------------
-- C4 — runPowerFlow utilizations
-- ---------------------------------------------------------------------------

theorem mget_foldl_mset_val {α ι : Type} (key : ι → String) (val : ι → α) (l : List ι)
    (h : (l.map key).Nodup) (x : ι) (hx : x ∈ l) :
    mget (l.foldl (fun m p => mset m (key p) (val p)) []) (key x) = some (val x) := by
  rw [foldl_mset_fresh key val l [] (by simp) h]
  rw [List.nil_append]
  apply mget_of_nodup_mem
  · simpa [NodupKeys, List.map_map, Function.comp] using h
  · exact List.mem_map.mpr ⟨x, hx, rfl⟩

theorem runPowerFlow_mget (graph : GridGraph) (injections : List (String × ℚ))
    (hnodup : NodupKeys graph.edges) (pe : String × GridEdge) (hpe : pe ∈ graph.edges) :
    ∃ f, mget (runPowerFlow graph injections).flows pe.1 = some f ∧
      mget (runPowerFlow graph injections).utilizations pe.1 =
        some (|f| / pe.2.capacityMW) := by
  have hflows : ∀ (a : List (String × ℚ)), mget (deriveFlows graph a) pe.1 =
      some (((mget a pe.2.sourceId).getD 0 - (mget a pe.2.targetId).getD 0) /
        pe.2.reactance) := by
    intro a
    exact mget_foldl_mset_val (fun q : String × GridEdge => q.1)
      (fun q => ((mget a q.2.sourceId).getD 0 - (mget a q.2.targetId).getD 0) /
        q.2.reactance) graph.edges hnodup pe hpe
  have hutil : ∀ (fl : List (String × ℚ)),
      mget (graph.edges.foldl
        (fun m q => mset m q.1 (|(mget fl q.1).getD 0| / q.2.capacityMW)) []) pe.1 =
      some (|(mget fl pe.1).getD 0| / pe.2.capacityMW) :=
    fun fl => mget_foldl_mset_val (fun q : String × GridEdge => q.1)
      (fun q => |(mget fl q.1).getD 0| / q.2.capacityMW) graph.edges hnodup pe hpe
  simp only [runPowerFlow]
  refine ⟨_, hflows _, ?_⟩
  rw [hutil, hflows]
  simp

/-- C4: for every graph with unique, positive-capacity edges and every
injection map, `runPowerFlow` assigns a utilization entry to every edge
(tripped included), equal to `|flow| / capacity` and hence non-negative. -/
theorem runPowerFlow_utilizations_spec (graph : GridGraph) (injections : List (String × ℚ))
    (hnodup : NodupKeys graph.edges)
    (hcap : ∀ pe ∈ graph.edges, 0 < pe.2.capacityMW) :
    ∀ pe ∈ graph.edges, ∃ f,
      mget (runPowerFlow graph injections).flows pe.1 = some f ∧
      mget (runPowerFlow graph injections).utilizations pe.1 =
        some (|f| / pe.2.capacityMW) ∧
      0 ≤ |f| / pe.2.capacityMW := by
  intro pe hpe
  obtain ⟨f, h1, h2⟩ := runPowerFlow_mget graph injections hnodup pe hpe
  exact ⟨f, h1, h2, div_nonneg (abs_nonneg f) (le_of_lt (hcap pe hpe))⟩

/-- C4 witness at the two-node fixture graph. -/
theorem runPowerFlow_utilizations_witness :
    NodupKeys graphAB.edges ∧ (("L1", edgeAB) ∈ graphAB.edges) ∧
    (0 : ℚ) < edgeAB.capacityMW ∧
    (∃ f, mget (runPowerFlow graphAB [("A", 45), ("B", -45)]).flows "L1" = some f ∧
      mget (runPowerFlow graphAB [("A", 45), ("B", -45)]).utilizations "L1" =
        some (|f| / edgeAB.capacityMW) ∧
      0 ≤ |f| / edgeAB.capacityMW) := by
  have hnd : NodupKeys graphAB.edges := by simp [NodupKeys, graphAB]
  have hmem : ("L1", edgeAB) ∈ graphAB.edges := by simp [graphAB]
  have hcap : ∀ pe ∈ graphAB.edges, (0 : ℚ) < pe.2.capacityMW := by
    intro pe hpe
    simp only [graphAB, List.mem_singleton] at hpe
    subst hpe
    norm_num [edgeAB]
  have h := runPowerFlow_utilizations_spec graphAB [("A", 45), ("B", -45)] hnd hcap
    ("L1", edgeAB) hmem
  exact ⟨hnd, hmem, by norm_num [edgeAB], h⟩

-- ---------------------------------------------------------------------------
-- C3 — buildInjections balance
-- ---------------------------------------------------------------------------

theorem enumFrom_filter_map {α β : Type} (P : α → Bool) (f : α → β) :
    ∀ (k : ℕ) (l : List α),
      ((List.enumFrom k l).filter (fun q => P q.2)).map (fun q => f q.2) =
        (l.filter P).map f := by
  intro k l
  induction l generalizing k with
  | nil => rfl
  | cons x xs ih =>
    simp only [List.enumFrom, List.filter]
    cases hP : P x with
    | true => simp [hP, ih]
    | false => simp [hP, ih]

theorem enum_filter_map {α β : Type} (P : α → Bool) (f : α → β) (l : List α) :
    (l.enum.filter (fun q => P q.2)).map (fun q => f q.2) = (l.filter P).map f :=
  enumFrom_filter_map P f 0 l

theorem enum_map_comp {α β : Type} (f : α → β) (l : List α) :
    l.enum.map (fun q => f q.2) = l.map f := by
  calc l.enum.map (fun q => f q.2) = (l.enum.map Prod.snd).map f := by
        rw [List.map_map]; rfl
    _ = l.map f := by rw [List.enum_map_snd]

theorem mem_enum_of_mem {α : Type} (l : List α) (x : α) (h : x ∈ l) :
    ∃ q ∈ l.enum, q.2 = x := by
  have hx : x ∈ l.enum.map Prod.snd := by rw [List.enum_map_snd]; exact h
  rcases List.mem_map.mp hx with ⟨q, hq, hqx⟩
  exact ⟨q, hq, hqx⟩

theorem mem_of_mem_enum {α : Type} (l : List α) (q : ℕ × α) (h : q ∈ l.enum) :
    q.2 ∈ l := by
  rw [← List.enum_map_snd l]
  exact List.mem_map.mpr ⟨q, h, rfl⟩

theorem injectionPass_eq (sinF : ℚ → ℚ) (seed : ℚ) :
    ∀ (l : List (ℕ × GridNode)) (acc : List (String × ℚ)) (gacc : List String),
      (∀ q ∈ l, q.2.id ∉ acc.map Prod.fst) → (l.map (fun q => q.2.id)).Nodup →
      l.foldl (injectionPassStep sinF seed) (acc, gacc) =
        (acc ++ l.map (fun q => (q.2.id, baseInjectionValue sinF seed q)),
         gacc ++ (l.filter (fun q => decide (q.2.type = NodeType.generator))).map
           (fun q => q.2.id)) := by
  intro l
  induction l with
  | nil => intro acc gacc _ _; simp
  | cons q qs ih =>
    intro acc gacc hfresh hnd
    simp only [List.map_cons, List.nodup_cons] at hnd
    have hq : q.2.id ∉ acc.map Prod.fst := hfresh q (List.mem_cons_self q qs)
    have hfresh' : ∀ r ∈ qs, r.2.id ∉ (acc ++ [(q.2.id, baseInjectionValue sinF seed q)]).map
        Prod.fst := by
      intro r hr
      simp only [List.map_append, List.mem_append, List.map_cons, List.map_nil,
        List.mem_singleton, not_or]
      refine ⟨hfresh r (List.mem_cons_of_mem q hr), ?_⟩
      intro he
      exact hnd.1 (he ▸ (List.mem_map.mpr ⟨r, hr, rfl⟩))
    have hstep : injectionPassStep sinF seed (acc, gacc) q =
        (acc ++ [(q.2.id, baseInjectionValue sinF seed q)],
         gacc ++ (List.filter (fun q => decide (q.2.type = NodeType.generator)) [q]).map
           (fun q => q.2.id)) := by
      cases hty : q.2.type with
      | generator =>
        simp only [injectionPassStep, hty, baseInjectionValue]
        rw [mset_of_not_mem _ _ _ hq]
        simp [List.filter, hty]
      | load =>
        simp only [injectionPassStep, hty, baseInjectionValue]
        rw [mset_of_not_mem _ _ _ hq]
        simp [List.filter, hty]
      | storage =>
        simp only [injectionPassStep, hty, baseInjectionValue]
        rw [mset_of_not_mem _ _ _ hq]
        simp [List.filter, hty]
      | substation =>
        simp only [injectionPassStep, hty, baseInjectionValue]
        rw [mset_of_not_mem _ _ _ hq]
        simp [List.filter, hty]
    rw [List.foldl_cons, hstep, ih _ _ hfresh' hnd.2]
    cases hty : q.2.type <;>
      simp [List.filter, hty, List.append_assoc]

theorem redistribution_sum (graph : GridGraph) (imb total : ℚ) :
    ∀ (gl : List String) (inj : List (String × ℚ)),
      valuesSum (gl.foldl (fun inj genId =>
        mset inj genId (((mget inj genId).getD 0) -
          imb * (genCapacityLookup graph genId / total))) inj) =
      valuesSum inj - imb * ((gl.map (genCapacityLookup graph)).sum / total) := by
  intro gl
  induction gl with
  | nil => intro inj; simp
  | cons g gs ih =>
    intro inj
    rw [List.foldl_cons, ih, valuesSum_mset]
    simp only [List.map_cons, List.sum_cons]
    ring

theorem map_eq_nil_of_ne {α β : Type} {l : List α} {f : α → β} (h : l.map f = []) : l = [] :=
  List.map_eq_nil_iff.mp h

/-- C3: for every graph satisfying the `Map` representation invariants whose
generator nodes have positive total capacity, and every seed (and any values of
the `Math.sin` primitive), the injections built by `buildInjections` sum to
within 1e-9 of zero — exactly 0 when the redistribution branch runs — and every
storage and substation node is assigned injection exactly 0. -/
theorem buildInjections_balanced (sinF : ℚ → ℚ) (graph : GridGraph) (seed : ℚ)
    (hids : ∀ p ∈ graph.nodes, p.1 = p.2.id) (hnodup : NodupKeys graph.nodes)
    (hgen : 0 < generatorCapacityTotal graph) :
    |valuesSum (buildInjections sinF graph seed)| ≤ 1e-9 ∧
    ∀ p ∈ graph.nodes, (p.2.type = NodeType.storage ∨ p.2.type = NodeType.substation) →
      mget (buildInjections sinF graph seed) p.2.id = some 0 := by
  have hperm : ((graph.nodes.map Prod.snd).insertionSort nodeIdOrder).Perm
      (graph.nodes.map Prod.snd) := List.perm_insertionSort _ _
  have hkeys : graph.nodes.map (fun p => p.2.id) = graph.nodes.map Prod.fst :=
    List.map_congr_left (fun p hp => (hids p hp).symm)
  have hvalnodup : ((graph.nodes.map Prod.snd).map GridNode.id).Nodup := by
    rw [List.map_map]
    exact (show graph.nodes.map (GridNode.id ∘ Prod.snd) = graph.nodes.map Prod.fst from
      hkeys) ▸ hnodup
  have hsortnodup : (((graph.nodes.map Prod.snd).insertionSort nodeIdOrder).map
      GridNode.id).Nodup := (hperm.map GridNode.id).nodup_iff.mpr hvalnodup
  have henumids : ((((graph.nodes.map Prod.snd).insertionSort nodeIdOrder).enum).map
      (fun q => q.2.id)).Nodup := by
    rw [enum_map_comp GridNode.id]
    exact hsortnodup
  have hpass := injectionPass_eq sinF seed
    ((graph.nodes.map Prod.snd).insertionSort nodeIdOrder).enum [] [] (by simp) henumids
  have hgidsEq : ((((graph.nodes.map Prod.snd).insertionSort nodeIdOrder).enum).filter
      (fun q => decide (q.2.type = NodeType.generator))).map (fun q => q.2.id) =
      (((graph.nodes.map Prod.snd).insertionSort nodeIdOrder).filter
        (fun n => decide (n.type = NodeType.generator))).map GridNode.id :=
    enum_filter_map (fun n => decide (n.type = NodeType.generator)) GridNode.id _
  have hlook : ∀ n ∈ (graph.nodes.map Prod.snd).insertionSort nodeIdOrder,
      mget graph.nodes n.id = some n := by
    intro n hn
    have hv : n ∈ graph.nodes.map Prod.snd := hperm.subset hn
    rcases List.mem_map.mp hv with ⟨p, hp, hpn⟩
    have hp1 : p.1 = n.id := by rw [hids p hp, hpn]
    have hpe : p = (n.id, n) := by
      rw [Prod.ext_iff]
      exact ⟨hp1, hpn⟩
    exact mget_of_nodup_mem _ _ _ hnodup (hpe ▸ hp)
  have hcapeq : ∀ n ∈ ((graph.nodes.map Prod.snd).insertionSort nodeIdOrder).filter
      (fun n => decide (n.type = NodeType.generator)),
      (genCapacityLookup graph ∘ GridNode.id) n = GridNode.capacityMW n := by
    intro n hn
    have hn' := (List.mem_filter.mp hn).1
    simp [genCapacityLookup, Function.comp, hlook n hn']
  have htotal : List.sum ((((((graph.nodes.map Prod.snd).insertionSort nodeIdOrder).enum).filter
      (fun q => decide (q.2.type = NodeType.generator))).map (fun q => q.2.id)).map
        (genCapacityLookup graph)) = generatorCapacityTotal graph := by
    rw [hgidsEq, List.map_map, List.map_congr_left hcapeq]
    exact ((hperm.filter (fun n => decide (n.type = NodeType.generator))).map
      GridNode.capacityMW).sum_eq
  have hne : ((((graph.nodes.map Prod.snd).insertionSort nodeIdOrder).enum).filter
      (fun q => decide (q.2.type = NodeType.generator))).map (fun q => q.2.id) ≠ [] := by
    rw [hgidsEq]
    intro h
    have hf := map_eq_nil_of_ne h
    have hvf : (graph.nodes.map Prod.snd).filter
        (fun n => decide (n.type = NodeType.generator)) = [] := by
      have hpf := hperm.filter (fun n => decide (n.type = NodeType.generator))
      rw [hf] at hpf
      exact hpf.symm.eq_nil
    rw [generatorCapacityTotal, hvf] at hgen
    simp at hgen
  have hbasenodup : NodupKeys ((((graph.nodes.map Prod.snd).insertionSort
      nodeIdOrder).enum).map (fun q => (q.2.id, baseInjectionValue sinF seed q))) := by
    rw [NodupKeys, List.map_map]
    exact henumids
  have hbase0 : ∀ p ∈ graph.nodes,
      (p.2.type = NodeType.storage ∨ p.2.type = NodeType.substation) →
      mget ((((graph.nodes.map Prod.snd).insertionSort nodeIdOrder).enum).map
        (fun q => (q.2.id, baseInjectionValue sinF seed q))) p.2.id = some 0 := by
    intro p hp hty
    have hv : p.2 ∈ (graph.nodes.map Prod.snd).insertionSort nodeIdOrder :=
      hperm.mem_iff.mpr (List.mem_map.mpr ⟨p, hp, rfl⟩)
    rcases mem_enum_of_mem _ _ hv with ⟨q, hq, hq2⟩
    have hval : baseInjectionValue sinF seed q = 0 := by
      rcases hty with hty | hty <;>
        simp [baseInjectionValue, hq2, hty]
    have hmem : (p.2.id, (0 : ℚ)) ∈ (((graph.nodes.map Prod.snd).insertionSort
        nodeIdOrder).enum).map (fun q => (q.2.id, baseInjectionValue sinF seed q)) := by
      refine List.mem_map.mpr ⟨q, hq, ?_⟩
      rw [hval, hq2]
    exact mget_of_nodup_mem _ _ _ hbasenodup hmem
  have hnotgid : ∀ p ∈ graph.nodes,
      (p.2.type = NodeType.storage ∨ p.2.type = NodeType.substation) →
      p.2.id ∉ ((((graph.nodes.map Prod.snd).insertionSort nodeIdOrder).enum).filter
        (fun q => decide (q.2.type = NodeType.generator))).map (fun q => q.2.id) := by
    intro p hp hty hmem
    rw [hgidsEq] at hmem
    rcases List.mem_map.mp hmem with ⟨n, hn, hnid⟩
    have hn1 := (List.mem_filter.mp hn).1
    have hn2 : n.type = NodeType.generator := by
      have := (List.mem_filter.mp hn).2
      rwa [decide_eq_true_iff] at this
    have hv : p.2 ∈ (graph.nodes.map Prod.snd).insertionSort nodeIdOrder :=
      hperm.mem_iff.mpr (List.mem_map.mpr ⟨p, hp, rfl⟩)
    have heq : n = p.2 := List.inj_on_of_nodup_map hsortnodup hn1 hv hnid
    rcases hty with hty | hty <;> rw [heq, hty] at hn2 <;> exact absurd hn2 (by simp)
  simp only [buildInjections]
  rw [hpass]
  simp only [List.nil_append]
  by_cases himb : (1e-9 : ℚ) < |valuesSum ((((graph.nodes.map Prod.snd).insertionSort
      nodeIdOrder).enum).map (fun q => (q.2.id, baseInjectionValue sinF seed q)))|
  · rw [if_pos ⟨hne, himb⟩]
    have htot2 : List.foldl (fun s genId => s + genCapacityLookup graph genId) 0
        (((((graph.nodes.map Prod.snd).insertionSort nodeIdOrder).enum).filter
          (fun q => decide (q.2.type = NodeType.generator))).map (fun q => q.2.id)) =
        generatorCapacityTotal graph := by
      rw [foldl_add_sum (genCapacityLookup graph)]
      simpa using htotal
    rw [htot2, if_pos hgen]
    constructor
    · rw [redistribution_sum, htotal, div_self (ne_of_gt hgen)]
      norm_num
    · intro p hp hty
      rw [foldl_mset_preserve (fun s : String => s)]
      · exact hbase0 p hp hty
      · intro x hx he
        exact hnotgid p hp hty (he ▸ hx)
  · rw [if_neg (fun hc => himb hc.2)]
    exact ⟨not_lt.mp himb, fun p hp hty => hbase0 p hp hty⟩

/-- C3 witness at the two-node fixture graph with a zero sine stand-in. -/
theorem buildInjections_balanced_witness :
    (∀ p ∈ graphAB.nodes, p.1 = p.2.id) ∧ NodupKeys graphAB.nodes ∧
    (0 : ℚ) < generatorCapacityTotal graphAB ∧
    (|valuesSum (buildInjections (fun _ => 0) graphAB 1)| ≤ 1e-9 ∧
      ∀ p ∈ graphAB.nodes,
        (p.2.type = NodeType.storage ∨ p.2.type = NodeType.substation) →
        mget (buildInjections (fun _ => 0) graphAB 1) p.2.id = some 0) := by
  have h1 : ∀ p ∈ graphAB.nodes, p.1 = p.2.id := by decide
  have h2 : NodupKeys graphAB.nodes := by
    simp [NodupKeys, graphAB]
  have h3 : (0 : ℚ) < generatorCapacityTotal graphAB := by
    have he : generatorCapacityTotal graphAB = 100 := by
      simp +decide [generatorCapacityTotal, graphAB, nodeA, nodeB, List.filter]
    rw [he]
    norm_num
  exact ⟨h1, h2, h3, buildInjections_balanced (fun _ => 0) graphAB 1 h1 h2 h3⟩

-- ---------------------------------------------------------------------------
-- C2 — simulateStep flows on a no-trip step
-- ---------------------------------------------------------------------------

theorem nodeIdOrder_AB : nodeIdOrder nodeA nodeB := by
  simp [nodeIdOrder, nodeA, nodeB]
  decide

theorem sort_graphAB : ((graphAB.nodes.map Prod.snd).insertionSort nodeIdOrder) =
    [nodeA, nodeB] := by
  simp [graphAB, List.insertionSort, List.orderedInsert, nodeIdOrder_AB]

theorem buildInjections_graphAB (g l : ℚ) (hg : |g| ≤ 1) (hl : |l| ≤ 1) :
    buildInjections (sinTwoPoint g l) graphAB 1 =
      [("A", 100 * (l * 0.1 + 0.45)), ("B", -(100 * (l * 0.1 + 0.45)))] := by
  have hpass : ([((0 : ℕ), nodeA), (1, nodeB)].foldl
      (injectionPassStep (sinTwoPoint g l) 1) ([], [])) =
      ([("A", 100 * (g * 0.175 + 0.775)), ("B", -100 * (l * 0.1 + 0.45))], ["A"]) := by
    simp only [List.foldl_cons, List.foldl_nil, injectionPassStep, nodeA, nodeB]
    norm_num +decide [sinTwoPoint, mset]
  have henum : (([nodeA, nodeB] : List GridNode).enum) = [(0, nodeA), (1, nodeB)] := rfl
  simp only [buildInjections, sort_graphAB, henum, hpass]
  have himb : (1e-9 : ℚ) < |valuesSum [("A", 100 * (g * 0.175 + 0.775)),
      ("B", -100 * (l * 0.1 + 0.45))]| := by
    have hsum : valuesSum [("A", 100 * (g * 0.175 + 0.775)), ("B", -100 * (l * 0.1 + 0.45))]
        = 100 * (g * 0.175 + 0.775) - 100 * (l * 0.1 + 0.45) := by
      simp [valuesSum]
      ring
    rw [hsum]
    rcases abs_le.mp hg with ⟨hg1, hg2⟩
    rcases abs_le.mp hl with ⟨hl1, hl2⟩
    have h5 : (5 : ℚ) ≤ 100 * (g * 0.175 + 0.775) - 100 * (l * 0.1 + 0.45) := by nlinarith
    calc (1e-9 : ℚ) < 5 := by norm_num
      _ ≤ _ := le_trans h5 (le_abs_self _)
  rw [if_pos ⟨by simp, himb⟩]
  have htot : List.foldl (fun s genId => s + genCapacityLookup graphAB genId) 0 ["A"] = 100 := by
    norm_num [genCapacityLookup, graphAB, mget, List.find?, nodeA]
  rw [htot, if_pos (by norm_num : (0 : ℚ) < 100)]
  simp only [List.foldl_cons, List.foldl_nil]
  norm_num +decide [mget, List.find?, mset, valuesSum, genCapacityLookup, graphAB, nodeA]

theorem strLe_AB : strLe "A" "B" := by
  simp [strLe]
  decide

theorem selectSlack_graphAB : selectSlack graphAB = "A" := by
  have hsort : ((graphAB.nodes.map Prod.fst).insertionSort strLe) = ["A", "B"] := by
    simp [graphAB, List.insertionSort, List.orderedInsert, strLe_AB]
  simp only [selectSlack, hsort, List.foldl_cons, List.foldl_nil]
  norm_num +decide [mget, List.find?, graphAB, nodeA, nodeB]

theorem runPowerFlow_graphAB (x : ℚ) (hx : 0 < x) :
    runPowerFlow graphAB [("A", x), ("B", -x)] = ⟨[("L1", x)], [("L1", x / 200)]⟩ := by
  have hbal : mset (mset [("A", x), ("B", -x)] "A"
      ((mget [("A", x), ("B", -x)] "A").getD 0 - valuesSum [("A", x), ("B", -x)])) "A"
      ((mget (mset [("A", x), ("B", -x)] "A"
        ((mget [("A", x), ("B", -x)] "A").getD 0 - valuesSum [("A", x), ("B", -x)])) "A").getD 0
        - valuesSum (mset [("A", x), ("B", -x)] "A"
          ((mget [("A", x), ("B", -x)] "A").getD 0 - valuesSum [("A", x), ("B", -x)]))) =
      [("A", x), ("B", -x)] := by
    norm_num [mset, mget, List.find?, valuesSum]
  have hisoA : isolatedInGraph graphAB "A" = false := by
    norm_num +decide [isolatedInGraph, graphAB, mget, List.find?, edgeAB, List.any]
  have hisoB : isolatedInGraph graphAB "B" = false := by
    norm_num +decide [isolatedInGraph, graphAB, mget, List.find?, edgeAB, List.any]
  have hang : computeAngles graphAB [("A", x), ("B", -x)] "A" = [("A", 0), ("B", -x)] := by
    have hfilter : ((graphAB.nodes.map Prod.fst).filter (fun id => id ≠ "A")) = ["B"] := by
      simp +decide [graphAB, List.filter]
    have hsolve : solveLinearSystem [[1]] [-x] = [-x] := by
      norm_num [solveLinearSystem, forwardElimAux, pivotSearch, eliminateStep, backSubst,
        swapIdx, getEntry, List.range_succ, List.range_zero, List.foldr]
    simp only [computeAngles, hfilter]
    norm_num +decide [List.insertionSort, List.orderedInsert, buildBMatrix, addEntry,
      getEntry, graphAB, edgeAB, mget_cons, mset, List.indexOf?, List.findIdx?,
      hsolve, List.zipWith]
  have hnodes : graphAB.nodes.map Prod.fst = ["A", "B"] := by simp [graphAB]
  have hedges : graphAB.edges = [("L1", edgeAB)] := rfl
  have habs : |x| = x := abs_of_pos hx
  simp only [runPowerFlow, selectSlack_graphAB, hnodes, List.foldl_cons, List.foldl_nil,
    hisoA, hisoB, Bool.false_eq_true, if_false, hbal, hang, deriveFlows, hedges]
  norm_num +decide [mget_cons, mset, edgeAB, habs]

theorem detectOverloads_small (x : ℚ) (hx : x ≤ 200) :
    detectOverloads [("L1", x / 200)] ∅ = [] := by
  have hnot : ¬ (1 < x / 200 ∧ ("L1" : String) ∉ (∅ : Finset String)) := by
    rintro ⟨h1, _⟩
    have h200 : (1 : ℚ) * 200 < x := (lt_div_iff₀ (by norm_num : (0 : ℚ) < 200)).mp h1
    linarith
  simp only [detectOverloads, List.filter]
  rw [decide_eq_false hnot]
  rfl

theorem runCascade_graphAB (x : ℚ) (hx : x ≤ 200) (inj : List (String × ℚ)) :
    runCascade graphAB inj [("L1", x / 200)] ∅ =
      ⟨graphAB, [("L1", 0)], [("L1", x / 200)], ∅, 0⟩ := by
  simp only [runCascade]
  rw [cascadeLoop_stop _ _ _ _ _ _ _ _ (detectOverloads_small x hx)]
  simp [graphAB, mset]

/-- C2 (bug exhibit): on the two-node fixture state with seed 1 — for every
value of the sine primitive within its true bounds — the cascade trips nothing,
yet `simulateStep` returns the cascade's zero-seeded flows map `[("L1", 0)]`
instead of the non-zero pre-cascade baseline flow: the zero-seeded map has
size > 0, so the baseline fallback in `simulateStep` can never trigger. -/
theorem simulateStep_zero_flows_bug (g l : ℚ) (hg : |g| ≤ 1) (hl : |l| ≤ 1) :
    (simulateStep (sinTwoPoint g l) stateAB).flows = [("L1", 0)] ∧
    (runPowerFlow stateAB.graph
      (buildInjections (sinTwoPoint g l) stateAB.graph stateAB.seed)).flows =
      [("L1", 100 * (l * 0.1 + 0.45))] ∧
    (100 * (l * 0.1 + 0.45) : ℚ) ≠ 0 := by
  have hl1 := (abs_le.mp hl).1
  have hl2 := (abs_le.mp hl).2
  have hx0 : (0 : ℚ) < 100 * (l * 0.1 + 0.45) := by nlinarith
  have hx200 : 100 * (l * 0.1 + 0.45) ≤ 200 := by nlinarith
  have hbi := buildInjections_graphAB g l hg hl
  have hpf := runPowerFlow_graphAB (100 * (l * 0.1 + 0.45)) hx0
  have hsg : stateAB.graph = graphAB := rfl
  have hss : stateAB.seed = 1 := rfl
  have hst : stateAB.trippedEdges = ∅ := rfl
  refine ⟨?_, ?_, by nlinarith⟩
  · simp only [simulateStep, hsg, hss, hst, hbi, hpf]
    rw [runCascade_graphAB _ hx200]
    simp [updateStateWithFlows]
  · rw [hsg, hss, hbi, hpf]

/-- C2 witness at the concrete sine values g = l = 0. -/
theorem simulateStep_zero_flows_bug_witness :
    |(0 : ℚ)| ≤ 1 ∧
    (simulateStep (sinTwoPoint 0 0) stateAB).flows = [("L1", 0)] ∧
    (runPowerFlow stateAB.graph
      (buildInjections (sinTwoPoint 0 0) stateAB.graph stateAB.seed)).flows =
      [("L1", 45)] ∧ ((45 : ℚ) ≠ 0) := by
  have h := simulateStep_zero_flows_bug 0 0 (by norm_num) (by norm_num)
  refine ⟨by norm_num, h.1, ?_, by norm_num⟩
  have h2 := h.2.1
  norm_num at h2
  exact h2
